import Mathlib

/-!
Shallow embedding of the todo CRUD service (src/src/todo.rs) and its CLI
client (src/src/main.rs).  SQL statements against the SQLite store are
modelled by explicit state passing over an association list of tables;
`NaiveDateTime` timestamps are modelled as `Int`; the wall clock is an
explicit `now` parameter to the operations that read `datetime('now')` or
rely on the schema's timestamp defaults.
-/

/-- The `Todo` record from src/src/todo.rs: id, body, completed,
created_at, updated_at. -/
structure Todo where
  id : Int
  body : String
  completed : Bool
  created_at : Int
  updated_at : Int
deriving DecidableEq, Repr

/-- Request payload for create from src/src/todo.rs: a single required
field `body`. -/
structure CreateTodo where
  body : String
deriving DecidableEq, Repr

/-- Request payload for update from src/src/todo.rs: both fields `body`
and `completed` are required (no Option, no serde default). -/
structure UpdateTodo where
  body : String
  completed : Bool
deriving DecidableEq, Repr

/-- Modelled from the spec: the repository's `Error` enum lives in
src/error.rs, which is not among the staged source files.  Spec section 4.2
gives it two variants: NotFound (zero rows matched a lookup or mutation by
id, i.e. sqlx's RowNotFound) and StoreFailure (any other store-level
failure, e.g. a malformed statement or a missing table). -/
inductive Error where
  | NotFound : Error
  | StoreFailure : Error
deriving DecidableEq, Repr

/-- An SQLite database: the tables that exist, each with its rows, plus the
monotone id counter.  Modelled from the spec for the parts the migration
(not staged) decides: one table holds the todo rows, and ids are assigned
monotonically with no reuse after deletion. -/
structure Db where
  tables : List (String × List Todo)
  nextId : Int
deriving DecidableEq, Repr

/-- Rows of a named table, or `none` when no such table exists (executing a
statement against a missing table is an SQLite error). -/
def Db.lookupTable (db : Db) (name : String) : Option (List Todo) :=
  (db.tables.find? (fun p => p.fst == name)).map Prod.snd

/-- Replace the rows of the named table, leaving every other table alone. -/
def setRows : List (String × List Todo) → String → List Todo →
    List (String × List Todo)
  | [], _, _ => []
  | q :: l, name, rows =>
    (if q.fst == name then (q.fst, rows) else q) :: setRows l name rows

/-- The rows of the `todos` table (empty when the table is missing). -/
def Db.todosRows (db : Db) : List Todo :=
  (db.lookupTable "todos").getD []

/-- Modelled from the spec: the migration (not staged) creates the single
`todos` table that the list/read/create/update statements address; the
store starts empty and assigns ids from 1. -/
def initDb : Db :=
  ⟨[("todos", [])], 1⟩

/-- `Todo::list`: runs `select * from todos`. -/
def Todo.list (db : Db) : Except Error (List Todo) :=
  match db.lookupTable "todos" with
  | some rows => .ok rows
  | none => .error .StoreFailure

/-- `Todo::read`: runs `select * from todos where id = ?` with `fetch_one`;
zero matching rows is sqlx RowNotFound, mapped to NotFound. -/
def Todo.read (db : Db) (id : Int) : Except Error Todo :=
  match db.lookupTable "todos" with
  | none => .error .StoreFailure
  | some rows =>
    match rows.find? (fun t => t.id == id) with
    | some t => .ok t
    | none => .error .NotFound

/-- `Todo::create`: runs `insert into todos (body) values (?) returning *`
with `fetch_one`.  The inserted row's defaults (completed false, both
timestamps set to now, the fresh id) are the schema's column defaults,
modelled from the spec since the migration is not staged. -/
def Todo.create (db : Db) (now : Int) (new_todo : CreateTodo) :
    Except Error (Todo × Db) :=
  match db.lookupTable "todos" with
  | none => .error .StoreFailure
  | some rows =>
    let t : Todo := ⟨db.nextId, new_todo.body, false, now, now⟩
    .ok (t, ⟨setRows db.tables "todos" (rows ++ [t]), db.nextId + 1⟩)

/-- Effect of `update todos set body = ?, completed = ?, updated_at =
datetime('now') where id = ?` on one row. -/
def updRow (now : Int) (id : Int) (updated_todo : UpdateTodo) (t : Todo) :
    Todo :=
  if t.id == id then
    { t with
      body := updated_todo.body
      completed := updated_todo.completed
      updated_at := now }
  else t

/-- `Todo::update`: runs the update statement above with `returning *` and
`fetch_one`; zero affected rows is sqlx RowNotFound, mapped to NotFound. -/
def Todo.update (db : Db) (now : Int) (id : Int)
    (updated_todo : UpdateTodo) : Except Error (Todo × Db) :=
  match db.lookupTable "todos" with
  | none => .error .StoreFailure
  | some rows =>
    match (rows.map (updRow now id updated_todo)).find?
        (fun t => t.id == id) with
    | some t =>
      .ok (t, ⟨setRows db.tables "todos" (rows.map (updRow now id updated_todo)),
               db.nextId⟩)
    | none => .error .NotFound

/-- `Todo::delete`: runs `delete from todo where id = ?` (the statement
names the table `todo`, unlike every other statement in the file, which
addresses `todos`), ignores the affected-row count and returns unit. -/
def Todo.delete (db : Db) (id : Int) : Except Error (Unit × Db) :=
  match db.lookupTable "todo" with
  | none => .error .StoreFailure
  | some rows =>
    .ok ((), ⟨setRows db.tables "todo" (rows.filter (fun t => !(t.id == id))),
              db.nextId⟩)

/-- One client-visible store operation; create and update carry the wall
clock value the statement reads. -/
inductive Op where
  | list : Op
  | read : Int → Op
  | create : Int → String → Op
  | update : Int → Int → String → Bool → Op
  | delete : Int → Op
deriving DecidableEq, Repr

/-- The wall clock value an operation reads, when it reads one. -/
def Op.time? : Op → Option Int
  | .create now _ => some now
  | .update now _ _ _ => some now
  | _ => none

/-- State transition of one operation: a failed statement is atomic and
leaves the store unchanged, as do the read-only statements. -/
def step (db : Db) : Op → Db
  | .list => db
  | .read _ => db
  | .create now b =>
    match Todo.create db now ⟨b⟩ with
    | .ok (_, db2) => db2
    | .error _ => db
  | .update now id b c =>
    match Todo.update db now id ⟨b, c⟩ with
    | .ok (_, db2) => db2
    | .error _ => db
  | .delete id =>
    match Todo.delete db id with
    | .ok (_, db2) => db2
    | .error _ => db

/-- Run a sequence of operations from a starting store. -/
def runOps (db : Db) : List Op → Db
  | [] => db
  | op :: ops => runOps (step db op) ops

/-- The clock values read along a trace never go backwards, starting from a
lower bound `t`: real time is monotone across successive requests. -/
def timesMono (t : Int) : List Op → Bool
  | [] => true
  | op :: ops =>
    match op.time? with
    | some n => decide (t ≤ n) && timesMono n ops
    | none => timesMono t ops

instance {ε α : Type} [DecidableEq ε] [DecidableEq α] :
    DecidableEq (Except ε α) := fun a b =>
  match a, b with
  | .ok x, .ok y =>
    if h : x = y then isTrue (by rw [h])
    else isFalse (by intro hh; cases hh; exact h rfl)
  | .error x, .error y =>
    if h : x = y then isTrue (by rw [h])
    else isFalse (by intro hh; cases hh; exact h rfl)
  | .ok _, .error _ => isFalse (by intro hh; cases hh)
  | .error _, .ok _ => isFalse (by intro hh; cases hh)

/-- Every persisted row respects the timestamp invariant and carries no
timestamp later than the clock bound `t`. -/
def rowsOk (t : Int) (db : Db) : Prop :=
  ∀ r ∈ db.todosRows, r.created_at ≤ r.updated_at ∧ r.updated_at ≤ t

/-- Every persisted row's id is below the store's id counter, so the next
assigned id is fresh. -/
def idsOk (db : Db) : Prop :=
  ∀ r ∈ db.todosRows, r.id < db.nextId

/-- JSON values, the wire format of every request and response body. -/
inductive Json where
  | null : Json
  | bool : Bool → Json
  | num : Int → Json
  | str : String → Json
  | arr : List Json → Json
  | obj : List (String × Json) → Json

/-- Field lookup in a JSON object. -/
def Json.get? (fields : List (String × Json)) (key : String) : Option Json :=
  (fields.find? (fun p => p.fst == key)).map Prod.snd

/-- Serde-derived deserializer of `UpdateTodo` (src/src/todo.rs): the
payload must be a JSON object carrying a string `body` and a boolean
`completed`; a missing or mistyped field is an error, as is input that is
not JSON at all (modelled as `none`). -/
def deserializeUpdateTodo : Option Json → Option UpdateTodo
  | some (Json.obj fields) =>
    match Json.get? fields "body" with
    | some (Json.str b) =>
      match Json.get? fields "completed" with
      | some (Json.bool c) => some ⟨b, c⟩
      | _ => none
    | _ => none
  | _ => none

/-- Modelled from the spec: the router/handler layer (src/api.rs,
src/router.rs, src/error.rs are not among the staged files).  Section 4.3:
deserialization failures fail fast with a client-error status (400) before
reaching the entity layer; section 4.2/6: NotFound maps to 404, StoreFailure
to 500, success to 200. -/
def handleUpdate (db : Db) (now : Int) (id : Int) (payload : Option Json) :
    Nat × Db :=
  match deserializeUpdateTodo payload with
  | none => (400, db)
  | some u =>
    match Todo.update db now id u with
    | .ok (_, db2) => (200, db2)
    | .error .NotFound => (404, db)
    | .error .StoreFailure => (500, db)

/-- A line the CLI prints to stdout: the pretty-printed JSON rendering of
the parsed body, or the body's raw text. -/
inductive OutLine where
  | prettyJson : Json → OutLine
  | raw : String → OutLine

/-- A line the CLI prints to stderr: the status line or the content-type. -/
inductive ErrLine where
  | statusLine : Nat → ErrLine
  | contentType : String → ErrLine

/-- What the CLI's `request` function wrote to the two streams. -/
structure CliOutput where
  stdout : List OutLine
  stderr : List ErrLine

/-- A failure that aborts the CLI's `request` function midway. -/
inductive CliErr where
  | invalidUtf8 : CliErr
  | jsonRender : CliErr
deriving DecidableEq, Repr

/-- An HTTP response as the CLI's `request` function consumes it, with the
two library calls it makes abstracted into fields: `bodyUtf8` is the result
of `String::from_utf8` on the collected body bytes (`none`: not UTF-8), and
`bodyJson` the result of parsing that text as JSON inside
`to_colored_json_auto` (`none`: not valid JSON). -/
structure CliResponse where
  status : Nat
  contentType : Option String
  bodyUtf8 : Option String
  bodyJson : Option Json

/-- Rust's `str::starts_with` on strings, modelled character-wise with the
structurally recursive `List.isPrefixOf` so that proofs can evaluate it. -/
def strStartsWith (s pre : String) : Bool :=
  pre.data.isPrefixOf s.data

/-- The response-rendering tail of `request` (src/src/main.rs): decode the
body, print the status line to stderr; when a content-type header is
present print it to stderr and, if it starts with application/json,
pretty-print the parsed body to stdout (aborting when it does not parse),
otherwise print the raw text; with no content-type header print the raw
text.  The pair's second component is the error that aborted the run, if
any. -/
def request (res : CliResponse) : CliOutput × Option CliErr :=
  match res.bodyUtf8 with
  | none => (⟨[], []⟩, some .invalidUtf8)
  | some s =>
    match res.contentType with
    | some ct =>
      if strStartsWith ct "application/json" then
        match res.bodyJson with
        | some j =>
          (⟨[.prettyJson j], [.statusLine res.status, .contentType ct]⟩, none)
        | none =>
          (⟨[], [.statusLine res.status, .contentType ct]⟩, some .jsonRender)
      else (⟨[.raw s], [.statusLine res.status, .contentType ct]⟩, none)
    | none => (⟨[.raw s], [.statusLine res.status]⟩, none)

theorem find?_setRows_ne (l : List (String × List Todo)) (n m : String)
    (rows : List Todo) (hnm : (n == m) = false) :
    (setRows l n rows).find? (fun p => p.fst == m) =
      l.find? (fun p => p.fst == m) := by
  induction l with
  | nil => rfl
  | cons q l ih =>
    show ((if q.fst == n then (q.fst, rows) else q) ::
        setRows l n rows).find? (fun p => p.fst == m) =
      (q :: l).find? (fun p => p.fst == m)
    cases hn : (q.fst == n) with
    | true =>
      have hm : (q.fst == m) = false := by
        rw [eq_of_beq hn]
        exact hnm
      simp only [hn, if_true, List.find?_cons, hm]
      exact ih
    | false =>
      simp only [hn, Bool.false_eq_true, if_false, List.find?_cons]
      cases hm : (q.fst == m) with
      | true => rfl
      | false => exact ih

theorem find?_setRows_same (l : List (String × List Todo)) (n : String)
    (rows : List Todo) (q : String × List Todo)
    (h : l.find? (fun p => p.fst == n) = some q) :
    (setRows l n rows).find? (fun p => p.fst == n) = some (q.fst, rows) := by
  induction l with
  | nil => simp [List.find?] at h
  | cons a l ih =>
    show ((if a.fst == n then (a.fst, rows) else a) ::
        setRows l n rows).find? (fun p => p.fst == n) = some (q.fst, rows)
    rw [List.find?_cons] at h
    cases ha : (a.fst == n) with
    | true =>
      simp only [ha] at h
      injection h with h1
      subst h1
      simp only [ha, if_true, List.find?_cons]
    | false =>
      simp only [ha, Bool.false_eq_true, if_false, List.find?_cons]
      simp only [ha] at h
      exact ih h

theorem lookupTable_set_ne (db : Db) (n m : String) (rows : List Todo)
    (nid : Int) (hnm : (n == m) = false) :
    Db.lookupTable ⟨setRows db.tables n rows, nid⟩ m = db.lookupTable m := by
  simp only [Db.lookupTable]
  rw [find?_setRows_ne db.tables n m rows hnm]

theorem lookupTable_set_same (db : Db) (n : String) (rows rows2 : List Todo)
    (nid : Int) (h : db.lookupTable n = some rows) :
    Db.lookupTable ⟨setRows db.tables n rows2, nid⟩ n = some rows2 := by
  simp only [Db.lookupTable] at h ⊢
  cases hf : db.tables.find? (fun p => p.fst == n) with
  | none => rw [hf] at h; simp at h
  | some q =>
    rw [hf] at h
    rw [find?_setRows_same db.tables n rows2 q hf]
    rfl

theorem updRow_id (now id : Int) (u : UpdateTodo) (t : Todo) :
    (updRow now id u t).id = t.id := by
  unfold updRow
  split <;> rfl

theorem updRow_of_ne (now id : Int) (u : UpdateTodo) (t : Todo)
    (h : (t.id == id) = false) : updRow now id u t = t := by
  simp [updRow, h]

theorem find?_map_updRow (l : List Todo) (now id : Int) (u : UpdateTodo) :
    (l.map (updRow now id u)).find? (fun t => t.id == id) =
      (l.find? (fun t => t.id == id)).map (updRow now id u) := by
  induction l with
  | nil => rfl
  | cons t l ih =>
    cases ht : (t.id == id) with
    | true =>
      simp [List.find?, updRow_id, ht]
    | false =>
      simp only [List.map_cons, List.find?, updRow_id, ht]
      exact ih

theorem find?_of_filter_eq_single (l : List Todo) (p : Todo → Bool)
    (t : Todo) (h : l.filter p = [t]) : l.find? p = some t := by
  induction l with
  | nil => simp at h
  | cons a l ih =>
    cases ha : p a with
    | true =>
      rw [List.filter_cons_of_pos ha] at h
      injection h with h1
      subst h1
      rw [List.find?_cons_of_pos _ ha]
    | false =>
      rw [List.filter_cons_of_neg (by simp [ha])] at h
      rw [List.find?_cons_of_neg _ (by simp [ha])]
      exact ih h

theorem find?_of_filter_eq_nil (l : List Todo) (p : Todo → Bool)
    (h : l.filter p = []) : l.find? p = none :=
  List.find?_eq_none.mpr (fun x hx => by
    have := List.filter_eq_nil_iff.mp h x hx
    simpa using this)

/-- C2: for every id, body and completed, given the schema's `todos` table,
update fails with NotFound when no row matches id; when a row matches, it
replaces that row's body and completed with the given values, sets its
updated_at to the current clock value, and returns the updated row, leaving
the rest of the table to the row-wise update map. -/
theorem update_contract (db : Db) (now id : Int) (u : UpdateTodo)
    (rows : List Todo) (h : db.lookupTable "todos" = some rows) :
    (rows.find? (fun t => t.id == id) = none →
      Todo.update db now id u = .error .NotFound)
    ∧ (∀ r, rows.find? (fun t => t.id == id) = some r →
        Todo.update db now id u =
          .ok (⟨r.id, u.body, u.completed, r.created_at, now⟩,
               ⟨setRows db.tables "todos" (rows.map (updRow now id u)),
                db.nextId⟩)) := by
  constructor
  · intro hf
    simp only [Todo.update, h, find?_map_updRow, hf, Option.map_none']
  · intro r hf
    have hr : r.id = id := by
      have h2 := List.find?_some hf
      simpa using h2
    simp only [Todo.update, h, find?_map_updRow, hf, Option.map_some']
    simp [updRow, hr]

theorem update_contract_witness :
    (Todo.update initDb 5 1 ⟨"b", true⟩ = .error .NotFound)
    ∧ Todo.update (runOps initDb [Op.create 3 "a"]) 5 1 ⟨"b", true⟩ =
        .ok (⟨1, "b", true, 3, 5⟩,
             ⟨[("todos", [⟨1, "b", true, 3, 5⟩])], 2⟩) := by
  constructor
  · exact (update_contract initDb 5 1 ⟨"b", true⟩ [] (by decide)).1 (by decide)
  · exact (update_contract (runOps initDb [Op.create 3 "a"]) 5 1 ⟨"b", true⟩
      [⟨1, "a", false, 3, 3⟩] (by decide)).2 ⟨1, "a", false, 3, 3⟩ (by decide)

/-- C4: given the schema's `todos` table, read returns the unique row
matching id when exactly one exists, fails with NotFound when zero rows
match, and never changes the store. -/
theorem read_contract (db : Db) (id : Int) (rows : List Todo) (t : Todo)
    (h : db.lookupTable "todos" = some rows) :
    (rows.filter (fun x => x.id == id) = [t] → Todo.read db id = .ok t)
    ∧ (rows.filter (fun x => x.id == id) = [] →
        Todo.read db id = .error .NotFound)
    ∧ step db (.read id) = db := by
  refine ⟨?_, ?_, rfl⟩
  · intro hf
    simp only [Todo.read, h, find?_of_filter_eq_single rows _ t hf]
  · intro hf
    simp only [Todo.read, h, find?_of_filter_eq_nil rows _ hf]

theorem read_contract_witness :
    (Todo.read (runOps initDb [Op.create 3 "a"]) 1 = .ok ⟨1, "a", false, 3, 3⟩)
    ∧ (Todo.read (runOps initDb [Op.create 3 "a"]) 2 = .error .NotFound)
    ∧ step (runOps initDb [Op.create 3 "a"]) (.read 1) =
        runOps initDb [Op.create 3 "a"] := by
  refine ⟨?_, ?_, ?_⟩
  · exact (read_contract (runOps initDb [Op.create 3 "a"]) 1
      [⟨1, "a", false, 3, 3⟩] ⟨1, "a", false, 3, 3⟩ (by decide)).1 (by decide)
  · exact (read_contract (runOps initDb [Op.create 3 "a"]) 2
      [⟨1, "a", false, 3, 3⟩] ⟨1, "a", false, 3, 3⟩ (by decide)).2.1 (by decide)
  · exact (read_contract (runOps initDb [Op.create 3 "a"]) 1
      [⟨1, "a", false, 3, 3⟩] ⟨1, "a", false, 3, 3⟩ (by decide)).2.2

/-- C10: Todo.delete never changes the rows of the `todos` table, whatever
store it runs against: its SQL statement addresses the differently named
table `todo`, so it either fails (no such table) or deletes from that other
table. -/
theorem delete_leaves_todos_unchanged (db : Db) (id : Int) :
    (step db (Op.delete id)).todosRows = db.todosRows := by
  simp only [step, Todo.delete]
  cases hl : db.lookupTable "todo" with
  | none => rfl
  | some rows =>
    simp only [Db.todosRows]
    rw [lookupTable_set_ne db "todo" "todos" _ db.nextId (by decide)]

/-- C1: the failing run behind the delete claim: against the schema the
spec and the other statements describe (a single `todos` table), here
holding the row with id 1, `Todo::delete 1` returns StoreFailure (its SQL
names the missing table `todo`) instead of succeeding idempotently. -/
theorem delete_missing_table :
    ((⟨1, "x", false, 0, 0⟩ : Todo) ∈
      (⟨[("todos", [⟨1, "x", false, 0, 0⟩])], 2⟩ : Db).todosRows)
    ∧ Todo.delete (⟨[("todos", [⟨1, "x", false, 0, 0⟩])], 2⟩ : Db) 1 =
        .error .StoreFailure := by
  decide

theorem todosRows_eq (db : Db) (rows : List Todo)
    (h : db.lookupTable "todos" = some rows) : db.todosRows = rows := by
  simp [Db.todosRows, h]

theorem step_delete_frame (db : Db) (id : Int) :
    (step db (Op.delete id)).todosRows = db.todosRows
    ∧ (step db (Op.delete id)).nextId = db.nextId := by
  simp only [step, Todo.delete]
  cases hl : db.lookupTable "todo" with
  | none => exact ⟨rfl, rfl⟩
  | some rows =>
    refine ⟨?_, rfl⟩
    simp only [Db.todosRows]
    rw [lookupTable_set_ne db "todo" "todos" _ db.nextId (by decide)]

theorem step_create_cases (db : Db) (now : Int) (b : String) :
    ((step db (Op.create now b)).todosRows =
        db.todosRows ++ [⟨db.nextId, b, false, now, now⟩]
      ∧ (step db (Op.create now b)).nextId = db.nextId + 1)
    ∨ step db (Op.create now b) = db := by
  cases hl : db.lookupTable "todos" with
  | none => right; simp [step, Todo.create, hl]
  | some rows =>
    have h2 : step db (Op.create now b) =
        ⟨setRows db.tables "todos" (rows ++ [⟨db.nextId, b, false, now, now⟩]),
         db.nextId + 1⟩ := by
      simp [step, Todo.create, hl]
    left
    rw [h2, todosRows_eq db rows hl]
    constructor
    · simp only [Db.todosRows]
      rw [lookupTable_set_same db "todos" rows _ _ hl]
      rfl
    · rfl

theorem step_update_cases (db : Db) (now id : Int) (b : String) (c : Bool) :
    ((step db (Op.update now id b c)).todosRows =
        db.todosRows.map (updRow now id ⟨b, c⟩)
      ∧ (step db (Op.update now id b c)).nextId = db.nextId)
    ∨ step db (Op.update now id b c) = db := by
  cases hl : db.lookupTable "todos" with
  | none => right; simp [step, Todo.update, hl]
  | some rows =>
    cases hf : (rows.map (updRow now id ⟨b, c⟩)).find? (fun t => t.id == id) with
    | none => right; simp [step, Todo.update, hl, hf]
    | some t2 =>
      have h2 : step db (Op.update now id b c) =
          ⟨setRows db.tables "todos" (rows.map (updRow now id ⟨b, c⟩)),
           db.nextId⟩ := by
        simp [step, Todo.update, hl, hf]
      left
      rw [h2, todosRows_eq db rows hl]
      constructor
      · simp only [Db.todosRows]
        rw [lookupTable_set_same db "todos" rows _ _ hl]
        rfl
      · rfl

theorem rowsOk_mono (t t2 : Int) (db : Db) (h : t ≤ t2) (hok : rowsOk t db) :
    rowsOk t2 db :=
  fun r hr => ⟨(hok r hr).1, le_trans (hok r hr).2 h⟩

theorem create_rowsOk (db : Db) (t now : Int) (b : String)
    (hok : rowsOk t db) (ht : t ≤ now) :
    rowsOk now (step db (Op.create now b)) := by
  rcases step_create_cases db now b with ⟨hrows, _⟩ | heq
  · intro r hr
    rw [hrows] at hr
    rcases List.mem_append.mp hr with hr1 | hr2
    · exact ⟨(hok r hr1).1, le_trans (hok r hr1).2 ht⟩
    · have hr3 : r = ⟨db.nextId, b, false, now, now⟩ := by simpa using hr2
      subst hr3
      exact ⟨le_refl now, le_refl now⟩
  · rw [heq]
    exact rowsOk_mono t now db ht hok

theorem update_rowsOk (db : Db) (t now id : Int) (b : String) (c : Bool)
    (hok : rowsOk t db) (ht : t ≤ now) :
    rowsOk now (step db (Op.update now id b c)) := by
  rcases step_update_cases db now id b c with ⟨hrows, _⟩ | heq
  · intro r hr
    rw [hrows] at hr
    rcases List.mem_map.mp hr with ⟨r0, hr0, hfr⟩
    rcases hok r0 hr0 with ⟨h1, h2⟩
    subst hfr
    unfold updRow
    split
    · exact ⟨le_trans h1 (le_trans h2 ht), le_refl now⟩
    · exact ⟨h1, le_trans h2 ht⟩
  · rw [heq]
    exact rowsOk_mono t now db ht hok

theorem delete_rowsOk (db : Db) (t : Int) (id : Int) (hok : rowsOk t db) :
    rowsOk t (step db (Op.delete id)) := by
  intro r hr
  rw [(step_delete_frame db id).1] at hr
  exact hok r hr

theorem runOps_rowsOk (ops : List Op) (t : Int) (db : Db)
    (hok : rowsOk t db) (hm : timesMono t ops = true) :
    ∀ r ∈ (runOps db ops).todosRows, r.created_at ≤ r.updated_at := by
  induction ops generalizing t db with
  | nil => exact fun r hr => (hok r hr).1
  | cons op ops ih =>
    cases op with
    | list => exact ih t db hok (by simpa [timesMono, Op.time?] using hm)
    | read id => exact ih t db hok (by simpa [timesMono, Op.time?] using hm)
    | create now b =>
      have hm2 : t ≤ now ∧ timesMono now ops = true := by
        simpa [timesMono, Op.time?] using hm
      exact ih now (step db (Op.create now b))
        (create_rowsOk db t now b hok hm2.1) hm2.2
    | update now id b c =>
      have hm2 : t ≤ now ∧ timesMono now ops = true := by
        simpa [timesMono, Op.time?] using hm
      exact ih now (step db (Op.update now id b c))
        (update_rowsOk db t now id b c hok hm2.1) hm2.2
    | delete id =>
      exact ih t (step db (Op.delete id)) (delete_rowsOk db t id hok)
        (by simpa [timesMono, Op.time?] using hm)

theorem create_idsOk (db : Db) (now : Int) (b : String) (h : idsOk db) :
    idsOk (step db (Op.create now b)) := by
  rcases step_create_cases db now b with ⟨hrows, hnid⟩ | heq
  · intro r hr
    rw [hrows] at hr
    rw [hnid]
    rcases List.mem_append.mp hr with hr1 | hr2
    · exact lt_trans (h r hr1) (lt_add_one db.nextId)
    · have hr3 : r = ⟨db.nextId, b, false, now, now⟩ := by simpa using hr2
      subst hr3
      exact lt_add_one db.nextId
  · rw [heq]
    exact h

theorem update_idsOk (db : Db) (now id : Int) (b : String) (c : Bool)
    (h : idsOk db) : idsOk (step db (Op.update now id b c)) := by
  rcases step_update_cases db now id b c with ⟨hrows, hnid⟩ | heq
  · intro r hr
    rw [hrows] at hr
    rw [hnid]
    rcases List.mem_map.mp hr with ⟨r0, hr0, hfr⟩
    subst hfr
    rw [updRow_id]
    exact h r0 hr0
  · rw [heq]
    exact h

theorem delete_idsOk (db : Db) (id : Int) (h : idsOk db) :
    idsOk (step db (Op.delete id)) := by
  intro r hr
  rw [(step_delete_frame db id).1] at hr
  rw [(step_delete_frame db id).2]
  exact h r hr

theorem runOps_idsOk (ops : List Op) (db : Db) (h : idsOk db) :
    idsOk (runOps db ops) := by
  induction ops generalizing db with
  | nil => exact h
  | cons op ops ih =>
    cases op with
    | list => exact ih db h
    | read id => exact ih db h
    | create now b => exact ih _ (create_idsOk db now b h)
    | update now id b c => exact ih _ (update_idsOk db now id b c h)
    | delete id => exact ih _ (delete_idsOk db id h)

theorem update_ok_inv (db : Db) (now id : Int) (u : UpdateTodo) (t2 : Todo)
    (db2 : Db) (h : Todo.update db now id u = .ok (t2, db2)) :
    ∃ rows, db.lookupTable "todos" = some rows
      ∧ (rows.map (updRow now id u)).find? (fun x => x.id == id) = some t2
      ∧ db2 = ⟨setRows db.tables "todos" (rows.map (updRow now id u)),
               db.nextId⟩ := by
  unfold Todo.update at h
  cases hl : db.lookupTable "todos" with
  | none => rw [hl] at h; simp at h
  | some rows =>
    rw [hl] at h
    cases hf : (rows.map (updRow now id u)).find? (fun x => x.id == id) with
    | none =>
      simp only [hf] at h
      exact Except.noConfusion h
    | some t3 =>
      simp only [hf, Except.ok.injEq, Prod.mk.injEq] at h
      exact ⟨rows, rfl, h.1 ▸ hf, h.2.symm⟩

theorem update_ok_matched (db : Db) (now id : Int) (u : UpdateTodo)
    (t2 : Todo) (db2 : Db) (r : Todo)
    (h : Todo.update db now id u = .ok (t2, db2))
    (hr : db.todosRows.find? (fun x => x.id == id) = some r) :
    t2 = ⟨r.id, u.body, u.completed, r.created_at, now⟩ := by
  rcases update_ok_inv db now id u t2 db2 h with ⟨rows, hl, hf, _⟩
  rw [todosRows_eq db rows hl] at hr
  rw [find?_map_updRow, hr] at hf
  simp only [Option.map_some'] at hf
  have hid : r.id = id := by
    have h3 := List.find?_some hr
    simpa using h3
  injection hf with hf2
  rw [← hf2]
  simp [updRow, hid]

/-- C3: create returns a fully populated row whose body is the given body,
completed is false, created_at equals updated_at (both the creation
instant), and whose id is the store's counter value, appending exactly one
row and bumping the counter; moreover in every reachable store all row ids
are below the counter, and no step ever decreases the counter, so each
created id is fresh and never previously returned. -/
theorem create_contract :
    (∀ (db : Db) (now : Int) (b : String) (rows : List Todo),
        db.lookupTable "todos" = some rows →
        Todo.create db now ⟨b⟩ =
          .ok (⟨db.nextId, b, false, now, now⟩,
               ⟨setRows db.tables "todos"
                  (rows ++ [⟨db.nextId, b, false, now, now⟩]),
                db.nextId + 1⟩))
    ∧ (∀ ops : List Op, idsOk (runOps initDb ops))
    ∧ (∀ (db : Db) (op : Op), db.nextId ≤ (step db op).nextId) := by
  refine ⟨?_, ?_, ?_⟩
  · intro db now b rows h
    simp only [Todo.create, h]
  · intro ops
    apply runOps_idsOk
    intro r hr
    rw [show Db.todosRows initDb = [] from by decide] at hr
    cases hr
  · intro db op
    cases op with
    | list => exact le_refl _
    | read id => exact le_refl _
    | create now b =>
      rcases step_create_cases db now b with ⟨_, hnid⟩ | heq
      · rw [hnid]
        exact le_of_lt (lt_add_one _)
      · rw [heq]
    | update now id b c =>
      rcases step_update_cases db now id b c with ⟨_, hnid⟩ | heq
      · rw [hnid]
      · rw [heq]
    | delete id => rw [(step_delete_frame db id).2]

theorem create_contract_witness :
    Todo.create initDb 7 ⟨"hi"⟩ =
      .ok (⟨1, "hi", false, 7, 7⟩, ⟨[("todos", [⟨1, "hi", false, 7, 7⟩])], 2⟩)
    ∧ idsOk (runOps initDb [Op.create 3 "a"])
    ∧ initDb.nextId ≤ (step initDb (Op.create 3 "a")).nextId := by
  refine ⟨?_, ?_, ?_⟩
  · exact create_contract.1 initDb 7 "hi" [] (by decide)
  · exact create_contract.2.1 [Op.create 3 "a"]
  · exact create_contract.2.2 initDb (Op.create 3 "a")

/-- C6: a successful update keeps the matched row's id and created_at,
changes only body, completed and updated_at on it, and maps every row whose
id differs to itself (rows with a different id are untouched). -/
theorem update_frame (db : Db) (now id : Int) (u : UpdateTodo) (t2 : Todo)
    (db2 : Db) (h : Todo.update db now id u = .ok (t2, db2)) :
    t2.id = id
    ∧ (∀ r, db.todosRows.find? (fun x => x.id == id) = some r →
        t2 = ⟨r.id, u.body, u.completed, r.created_at, now⟩)
    ∧ db2.todosRows = db.todosRows.map (updRow now id u)
    ∧ (∀ r : Todo, (r.id == id) = false → updRow now id u r = r) := by
  rcases update_ok_inv db now id u t2 db2 h with ⟨rows, hl, hf, hdb2⟩
  refine ⟨?_, ?_, ?_, ?_⟩
  · have h3 := List.find?_some hf
    simpa using h3
  · intro r hr
    exact update_ok_matched db now id u t2 db2 r h hr
  · subst hdb2
    rw [todosRows_eq db rows hl]
    simp only [Db.todosRows]
    rw [lookupTable_set_same db "todos" rows _ _ hl]
    rfl
  · intro r hrne
    exact updRow_of_ne now id u r hrne

theorem update_frame_witness :
    ((⟨1, "b", true, 3, 5⟩ : Todo).id = 1)
    ∧ (∀ r, (runOps initDb [Op.create 3 "a"]).todosRows.find?
          (fun x => x.id == 1) = some r →
        (⟨1, "b", true, 3, 5⟩ : Todo) = ⟨r.id, "b", true, r.created_at, 5⟩)
    ∧ (⟨[("todos", [⟨1, "b", true, 3, 5⟩])], 2⟩ : Db).todosRows =
        (runOps initDb [Op.create 3 "a"]).todosRows.map (updRow 5 1 ⟨"b", true⟩)
    ∧ (∀ r : Todo, (r.id == 1) = false → updRow 5 1 ⟨"b", true⟩ r = r) :=
  update_frame (runOps initDb [Op.create 3 "a"]) 5 1 ⟨"b", true⟩
    ⟨1, "b", true, 3, 5⟩ ⟨[("todos", [⟨1, "b", true, 3, 5⟩])], 2⟩ (by decide)

/-- C5 as stated is too strong: when the update's clock reads the very
instant stored in the row's updated_at (SQLite's datetime has finite
resolution, so two statements can share it), the returned updated_at equals
the previous value instead of strictly exceeding it.  Concretely: create at
instant 5, then update at instant 5. -/
theorem update_same_instant_not_strict :
    (runOps initDb [Op.create 5 "a"]).todosRows = [⟨1, "a", false, 5, 5⟩]
    ∧ Todo.update (runOps initDb [Op.create 5 "a"]) 5 1 ⟨"a", true⟩ =
        .ok (⟨1, "a", true, 5, 5⟩, ⟨[("todos", [⟨1, "a", true, 5, 5⟩])], 2⟩)
    ∧ ¬ ((⟨1, "a", false, 5, 5⟩ : Todo).updated_at <
          (⟨1, "a", true, 5, 5⟩ : Todo).updated_at) := by
  refine ⟨by decide, by decide, by decide⟩

/-- C5 amended: in every store reachable from the initial store by a trace
whose clock values never decrease, every row satisfies updated_at ≥
created_at; and an update whose clock reads a strictly later instant than
the matched row's updated_at returns a strictly larger updated_at. -/
theorem timestamps_invariant :
    (∀ (t : Int) (ops : List Op), timesMono t ops = true →
        ∀ r ∈ (runOps initDb ops).todosRows, r.created_at ≤ r.updated_at)
    ∧ (∀ (db : Db) (now id : Int) (u : UpdateTodo) (t2 : Todo) (db2 : Db)
        (r : Todo), Todo.update db now id u = .ok (t2, db2) →
        db.todosRows.find? (fun x => x.id == id) = some r →
        r.updated_at < now → r.updated_at < t2.updated_at) := by
  constructor
  · intro t ops hm
    apply runOps_rowsOk ops t initDb ?_ hm
    intro r hr
    rw [show Db.todosRows initDb = [] from by decide] at hr
    cases hr
  · intro db now id u t2 db2 r h hr hlt
    have h2 := update_ok_matched db now id u t2 db2 r h hr
    rw [h2]
    exact hlt

theorem timestamps_invariant_witness :
    (∀ r ∈ (runOps initDb [Op.create 3 "a", Op.update 5 1 "b" true]).todosRows,
        r.created_at ≤ r.updated_at)
    ∧ ((⟨1, "a", false, 3, 3⟩ : Todo).updated_at <
        (⟨1, "b", true, 3, 5⟩ : Todo).updated_at) := by
  constructor
  · exact timestamps_invariant.1 0 [Op.create 3 "a", Op.update 5 1 "b" true]
      (by decide)
  · exact timestamps_invariant.2 (runOps initDb [Op.create 3 "a"]) 5 1
      ⟨"b", true⟩ ⟨1, "b", true, 3, 5⟩ ⟨[("todos", [⟨1, "b", true, 3, 5⟩])], 2⟩
      ⟨1, "a", false, 3, 3⟩ (by decide) (by decide) (by decide)

/-- C7: the serde-derived update deserializer succeeds only on a JSON
object carrying both required fields with the right types, and a payload it
rejects (malformed JSON or a missing field) makes the handler answer with
the 400 client-error status and an unchanged store, before any entity
operation runs. -/
theorem update_payload_contract :
    (∀ (payload : Option Json) (u : UpdateTodo),
        deserializeUpdateTodo payload = some u →
        ∃ fields, payload = some (Json.obj fields)
          ∧ Json.get? fields "body" = some (Json.str u.body)
          ∧ Json.get? fields "completed" = some (Json.bool u.completed))
    ∧ (∀ (db : Db) (now id : Int) (payload : Option Json),
        deserializeUpdateTodo payload = none →
        handleUpdate db now id payload = (400, db)) := by
  constructor
  · intro payload u h
    cases payload with
    | none => simp [deserializeUpdateTodo] at h
    | some j =>
      cases j with
      | null => simp [deserializeUpdateTodo] at h
      | bool b => simp [deserializeUpdateTodo] at h
      | num n => simp [deserializeUpdateTodo] at h
      | str s2 => simp [deserializeUpdateTodo] at h
      | arr l => simp [deserializeUpdateTodo] at h
      | obj fields =>
        refine ⟨fields, rfl, ?_⟩
        have h3 : (match Json.get? fields "body" with
            | some (Json.str b) =>
              match Json.get? fields "completed" with
              | some (Json.bool c) => some (⟨b, c⟩ : UpdateTodo)
              | _ => none
            | _ => none) = some u := h
        split at h3
        · rename_i b hb2
          split at h3
          · rename_i c hc2
            injection h3 with h4
            subst h4
            exact ⟨hb2, hc2⟩
          · exact Option.noConfusion h3
        · exact Option.noConfusion h3
  · intro db now id payload h
    simp [handleUpdate, h]

theorem update_payload_witness :
    (∃ fields,
        (some (Json.obj [("body", Json.str "x"), ("completed", Json.bool true)])
          : Option Json) = some (Json.obj fields)
        ∧ Json.get? fields "body" = some (Json.str "x")
        ∧ Json.get? fields "completed" = some (Json.bool true))
    ∧ handleUpdate initDb 0 1 none = (400, initDb) := by
  constructor
  · exact update_payload_contract.1
      (some (Json.obj [("body", Json.str "x"), ("completed", Json.bool true)]))
      ⟨"x", true⟩ rfl
  · exact update_payload_contract.2 initDb 0 1 none rfl

/-- C9 as stated fails: on a response whose content-type is
application/json but whose body text does not parse as JSON, the source's
request function aborts with an error and prints nothing to stdout, rather
than printing the body. -/
theorem cli_json_body_unparseable :
    (strStartsWith "application/json" "application/json" = true)
    ∧ (request ⟨200, some "application/json", some "x", none⟩).1.stdout = []
    ∧ (request ⟨200, some "application/json", some "x", none⟩).2 =
        some CliErr.jsonRender := by
  refine ⟨by decide, rfl, rfl⟩

/-- C9 amended: for a response whose body bytes are valid UTF-8, the CLI
pretty-prints the parsed body to stdout when the content-type starts with
application/json and the body parses as JSON (aborting with an error and an
empty stdout when it does not parse), prints the raw body text to stdout
otherwise, and prints the status line to stderr followed by the
content-type whenever that header is present. -/
theorem cli_render_contract (res : CliResponse) (s : String)
    (hs : res.bodyUtf8 = some s) :
    (∀ ct, res.contentType = some ct →
        strStartsWith ct "application/json" = true →
        (∀ j, res.bodyJson = some j →
            request res =
              (⟨[.prettyJson j], [.statusLine res.status, .contentType ct]⟩,
               none))
        ∧ (res.bodyJson = none →
            request res =
              (⟨[], [.statusLine res.status, .contentType ct]⟩,
               some CliErr.jsonRender)))
    ∧ (∀ ct, res.contentType = some ct →
        strStartsWith ct "application/json" = false →
        request res =
          (⟨[.raw s], [.statusLine res.status, .contentType ct]⟩, none))
    ∧ (res.contentType = none →
        request res = (⟨[.raw s], [.statusLine res.status]⟩, none)) := by
  refine ⟨?_, ?_, ?_⟩
  · intro ct hct hpre
    constructor
    · intro j hj
      simp [request, hs, hct, hpre, hj]
    · intro hj
      simp [request, hs, hct, hpre, hj]
  · intro ct hct hpre
    simp [request, hs, hct, hpre]
  · intro hct
    simp [request, hs, hct]

theorem cli_render_witness :
    (request ⟨200, some "application/json", some "null", some Json.null⟩ =
        (⟨[.prettyJson Json.null],
          [.statusLine 200, .contentType "application/json"]⟩, none))
    ∧ (request ⟨200, some "text/plain", some "hi", none⟩ =
        (⟨[.raw "hi"], [.statusLine 200, .contentType "text/plain"]⟩, none))
    ∧ (request ⟨204, none, some "", none⟩ =
        (⟨[.raw ""], [.statusLine 204]⟩, none)) := by
  refine ⟨?_, ?_, ?_⟩
  · exact ((cli_render_contract
      ⟨200, some "application/json", some "null", some Json.null⟩ "null"
      rfl).1 "application/json" rfl (by decide)).1 Json.null rfl
  · exact (cli_render_contract ⟨200, some "text/plain", some "hi", none⟩ "hi"
      rfl).2.1 "text/plain" rfl (by decide)
  · exact (cli_render_contract ⟨204, none, some "", none⟩ "" rfl).2.2 rfl
